import Mathlib

/-! Verification of the SipHash implementation (siphash.py, util.py) against its
natural-language specification.  The Python source is embedded shallowly:
Python ints become `Int`/`Nat` with explicit wraparound, `bytes` become
`List Nat`, and `int.to_bytes` (which can raise OverflowError) becomes an
`Except` computation. -/

/-- Error raised by Python's `int.to_bytes` on a negative or too-large value. -/
inductive PyError where
  | overflowError
deriving DecidableEq, Repr

/-- Byte `i` (little-endian position) of a natural number. -/
def byte (n i : Nat) : Nat := (n >>> (8 * i)) % 256

/-- The 8 bytes of `n` in little-endian order. -/
def toBytesLE8 (n : Nat) : List Nat :=
  [byte n 0, byte n 1, byte n 2, byte n 3, byte n 4, byte n 5, byte n 6, byte n 7]

/-- `n.to_bytes(8, 'big')`: the 8 bytes of `n` in big-endian order. -/
def toBytesBE8 (n : Nat) : List Nat :=
  [byte n 7, byte n 6, byte n 5, byte n 4, byte n 3, byte n 2, byte n 1, byte n 0]

/-- `int.from_bytes(bs, 'little')`. -/
def fromBytesLE : List Nat → Nat
  | [] => 0
  | b :: bs => b + 256 * fromBytesLE bs

/-- util.big_to_little8: `int.from_bytes(num.to_bytes(8, 'big'), 'little')`.
`to_bytes(8, 'big')` raises OverflowError when `num` is negative or does not
fit in 8 bytes. -/
def big_to_little8 (num : Int) : Except PyError Nat :=
  if 0 ≤ num ∧ num < 0x10000000000000000 then .ok (fromBytesLE (toBytesBE8 num.toNat))
  else .error .overflowError

/-- util.rotl8: `((num << bits) & 0xffffffffffffffff) | (num >> (64 - bits))`. -/
def rotl8 (num bits : Nat) : Nat :=
  ((num <<< bits) &&& 0xffffffffffffffff) ||| (num >>> (64 - bits))

/-- The 4-word internal state `(v0, v1, v2, v3)`. -/
abbrev SipState := Nat × Nat × Nat × Nat

/-- All four state words fit in 64 bits. -/
def Valid64 (s : SipState) : Prop :=
  s.1 < 2 ^ 64 ∧ s.2.1 < 2 ^ 64 ∧ s.2.2.1 < 2 ^ 64 ∧ s.2.2.2 < 2 ^ 64

instance (s : SipState) : Decidable (Valid64 s) := by
  unfold Valid64; infer_instance

/-- SipHash._encode_key: `(big_to_little8(key >> 8 * 8), big_to_little8(key & 0xffffffffffffffff))`.
Python's `>>` on int is a floor shift (`Int.fdiv` by 2^64) and `& 0xffffffffffffffff`
is the Euclidean remainder mod 2^64, also on negative ints. -/
def encode_key (key : Int) : Except PyError (Nat × Nat) := do
  let k0 ← big_to_little8 (Int.fdiv key 0x10000000000000000)
  let k1 ← big_to_little8 (Int.emod key 0x10000000000000000)
  return (k0, k1)

/-- SipHash._initialise_internal_state. -/
def initialise_internal_state (k0 k1 : Nat) : SipState :=
  let v0 := k0 ^^^ 0x736f6d6570736575
  let v1 := k1 ^^^ 0x646f72616e646f6d
  let v2 := k0 ^^^ 0x6c7967656e657261
  let v3 := k1 ^^^ 0x7465646279746573
  (v0, v1, v2, v3)

/-- SipHash._sipround, step for step as written in the source. -/
def sipround (internal_state : SipState) : SipState :=
  let (v0, v1, v2, v3) := internal_state
  let v0 := (v0 + v1) &&& 0xffffffffffffffff
  let v1 := rotl8 v1 13
  let v1 := v1 ^^^ v0
  let v0 := rotl8 v0 32
  let v2 := (v2 + v3) &&& 0xffffffffffffffff
  let v3 := rotl8 v3 16
  let v3 := v3 ^^^ v2
  let v2 := (v2 + v1) &&& 0xffffffffffffffff
  let v1 := rotl8 v1 17
  let v1 := v1 ^^^ v2
  let v2 := rotl8 v2 32
  let v0 := (v0 + v3) &&& 0xffffffffffffffff
  let v3 := rotl8 v3 21
  let v3 := v3 ^^^ v0
  (v0, v1, v2, v3)

/-- `for _ in range(n): state = self._sipround(state)`. -/
def siproundIter : Nat → SipState → SipState
  | 0, s => s
  | n + 1, s => siproundIter n (sipround s)

/-- The padded buffer built inside SipHash._message_to_words:
`message + b'\x00' * ((len(message) + 1) % 8) + (len(message) % 256).to_bytes(1, 'little')`. -/
def paddedMessage (message : List Nat) : List Nat :=
  message ++ List.replicate ((message.length + 1) % 8) 0 ++ [message.length % 256]

/-- `[int.from_bytes(m[i : i + 8], 'little') for i in range(0, len(m), 8)]`:
consecutive 8-byte little-endian words, the last chunk possibly shorter. -/
def chunkWordsLE : List Nat → List Nat
  | [] => []
  | b0 :: b1 :: b2 :: b3 :: b4 :: b5 :: b6 :: b7 :: rest =>
      fromBytesLE [b0, b1, b2, b3, b4, b5, b6, b7] :: chunkWordsLE rest
  | l => [fromBytesLE l]

/-- SipHash._message_to_words. -/
def message_to_words (message : List Nat) : List Nat :=
  chunkWordsLE (paddedMessage message)

/-- SipHash._compress.  `range(self.c)` is empty when `c ≤ 0`, hence `c.toNat`. -/
def compress (c : Int) (message : List Nat) (internal_state : SipState) : SipState :=
  let words := message_to_words message
  words.foldl (fun s word =>
    let (v0, v1, v2, v3) := s
    let v3 := v3 ^^^ word
    let (v0, v1, v2, v3) := siproundIter c.toNat (v0, v1, v2, v3)
    let v0 := v0 ^^^ word
    (v0, v1, v2, v3)) internal_state

/-- SipHash._finalise. -/
def finalise (d : Int) (internal_state : SipState) : Nat :=
  let (v0, v1, v2, v3) := internal_state
  let v2 := v2 ^^^ 0xff
  let (v0, v1, v2, v3) := siproundIter d.toNat (v0, v1, v2, v3)
  v0 ^^^ v1 ^^^ v2 ^^^ v3

/-- The pipeline run by SipHash.get_hash when no hash is cached yet. -/
def compute_hash (key : Int) (message : List Nat) (c d : Int) : Except PyError Nat := do
  let (k0, k1) ← encode_key key
  let internal_state := initialise_internal_state k0 k1
  let internal_state := compress c message internal_state
  return finalise d internal_state

/-- The engine object: the fields set by SipHash.__init__ (`hash` starts as None). -/
structure SipHash where
  key : Int
  message : List Nat
  c : Int
  d : Int
  hash : Option Nat
deriving DecidableEq, Repr

/-- SipHash.__init__ (round counts are passed explicitly; the Python defaults are c=2, d=4). -/
def mkSipHash (key : Int) (message : List Nat) (c d : Int) : SipHash :=
  { key := key, message := message, c := c, d := d, hash := none }

/-- SipHash.get_hash: return the cached hash, or compute, cache and return it.
If the pipeline raises, the exception propagates and `hash` stays unset. -/
def get_hash (s : SipHash) : Except PyError Nat × SipHash :=
  match s.hash with
  | some h => (.ok h, s)
  | none =>
    match compute_hash s.key s.message s.c s.d with
    | .ok h => (.ok h, { s with hash := some h })
    | .error e => (.error e, s)

/-- Python's `hex(n)[2:]` for a nonnegative int: lowercase hex digits, no leading zeros. -/
def pyHex (n : Nat) : String := String.mk (Nat.toDigits 16 n)

/-- SipHash.hexdigest: `hex(self.get_hash())[2:]`. -/
def hexdigest (s : SipHash) : Except PyError String × SipHash :=
  match get_hash s with
  | (.ok h, s2) => (.ok (pyHex h), s2)
  | (.error e, s2) => (.error e, s2)

/-- C1: for key 0x000102030405060708090a0b0c0d0e0f, the 15-byte message
00 01 ... 0e and round counts c=2, d=4, get_hash() returns 0xa129ca6149be45e5
and hexdigest() returns "a129ca6149be45e5". -/
theorem siphash_known_answer_vector :
    (get_hash (mkSipHash 0x000102030405060708090a0b0c0d0e0f
      [0x00, 0x01, 0x02, 0x03, 0x04, 0x05, 0x06, 0x07,
       0x08, 0x09, 0x0a, 0x0b, 0x0c, 0x0d, 0x0e] 2 4)).1 = .ok 0xa129ca6149be45e5 ∧
    (hexdigest (mkSipHash 0x000102030405060708090a0b0c0d0e0f
      [0x00, 0x01, 0x02, 0x03, 0x04, 0x05, 0x06, 0x07,
       0x08, 0x09, 0x0a, 0x0b, 0x0c, 0x0d, 0x0e] 2 4)).1 = .ok "a129ca6149be45e5" := by
  constructor
  · rfl
  · rfl

/-- C2 (code bug): the padded buffer is NOT a multiple of 8 bytes long in
general.  The empty message yields the 2-byte buffer 00 00 (one zero pad byte
plus the length byte), and a message of 8 zero bytes yields a 10-byte buffer
with a single zero pad byte before the length byte 08 — not the 7 zero bytes
plus length byte the spec describes. -/
theorem message_padding_not_multiple_of8 :
    paddedMessage [] = [0, 0] ∧
    (paddedMessage []).length % 8 ≠ 0 ∧
    paddedMessage [0, 0, 0, 0, 0, 0, 0, 0] = [0, 0, 0, 0, 0, 0, 0, 0, 0, 8] ∧
    (paddedMessage [0, 0, 0, 0, 0, 0, 0, 0]).length % 8 ≠ 0 := by
  refine ⟨rfl, by decide, rfl, by decide⟩

/-- Reversal of the 8-byte order of a 64-bit value (the spec's byteSwap64);
this is exactly the value big_to_little8 computes on an in-range input. -/
def byteSwap64 (n : Nat) : Nat := fromBytesLE (toBytesBE8 n)

theorem big_to_little8_ofNat (m : Nat) (hm : m < 2 ^ 64) :
    big_to_little8 (Int.ofNat m) = .ok (byteSwap64 m) := by
  unfold big_to_little8
  rw [if_pos]
  · rfl
  · have h2 : m < 18446744073709551616 := by omega
    exact ⟨Int.ofNat_nonneg m, Int.ofNat_lt.mpr h2⟩

theorem fdiv_ofNat_word (m : Nat) :
    Int.fdiv (Int.ofNat m) 0x10000000000000000 = Int.ofNat (m / 0x10000000000000000) := by
  have h : Int.fdiv (Int.ofNat m) 0x10000000000000000 =
      Int.tdiv (Int.ofNat m) 0x10000000000000000 :=
    Int.fdiv_eq_tdiv (Int.ofNat_nonneg m) (by norm_num)
  exact h.trans rfl

theorem encode_key_ofNat (k : Nat) (hk : k < 2 ^ 128) :
    encode_key (Int.ofNat k) = .ok (byteSwap64 (k / 2 ^ 64), byteSwap64 (k % 2 ^ 64)) := by
  unfold encode_key
  rw [fdiv_ofNat_word,
    show Int.emod (Int.ofNat k) 0x10000000000000000 = Int.ofNat (k % 0x10000000000000000) from rfl,
    big_to_little8_ofNat _ (by omega), big_to_little8_ofNat _ (by omega)]
  rfl

theorem compute_hash_ofNat (k : Nat) (hk : k < 2 ^ 128) (msg : List Nat) (c d : Int) :
    compute_hash (Int.ofNat k) msg c d =
      .ok (finalise d (compress c msg (initialise_internal_state
        (byteSwap64 (k / 2 ^ 64)) (byteSwap64 (k % 2 ^ 64))))) := by
  unfold compute_hash
  rw [encode_key_ofNat k hk]
  rfl

theorem get_hash_ok_of_compute (s : SipHash) (hhash : s.hash = none) (h : Nat)
    (hc : compute_hash s.key s.message s.c s.d = .ok h) :
    get_hash s = (.ok h, { s with hash := some h }) := by
  unfold get_hash
  rw [hhash, hc]

theorem get_hash_error_of_compute (s : SipHash) (hhash : s.hash = none) (e : PyError)
    (hc : compute_hash s.key s.message s.c s.d = .error e) :
    get_hash s = (.error e, s) := by
  unfold get_hash
  rw [hhash, hc]

/-- C5: encode_key splits a 128-bit key into its high and low 64-bit halves and
byte-swaps each (byteSwap64 being byte-order reversal); on the test key it
yields k0 = 0x0706050403020100, k1 = 0x0f0e0d0c0b0a0908. -/
theorem encode_key_splits_and_swaps :
    (∀ n : Nat, byteSwap64 n = fromBytesLE ((toBytesLE8 n).reverse)) ∧
    (∀ k : Nat, k < 2 ^ 128 →
      encode_key (Int.ofNat k) = .ok (byteSwap64 (k >>> 64), byteSwap64 (k % 2 ^ 64))) ∧
    encode_key 0x000102030405060708090a0b0c0d0e0f =
      .ok (0x0706050403020100, 0x0f0e0d0c0b0a0908) := by
  refine ⟨fun n => rfl, fun k hk => ?_, by rfl⟩
  rw [Nat.shiftRight_eq_div_pow]
  exact encode_key_ofNat k hk

/-- Witness for C5 at the documented test key. -/
theorem encode_key_splits_and_swaps_witness :
    (0x000102030405060708090a0b0c0d0e0f : Nat) < 2 ^ 128 ∧
    encode_key (Int.ofNat 0x000102030405060708090a0b0c0d0e0f) =
      .ok (byteSwap64 (0x000102030405060708090a0b0c0d0e0f >>> 64),
           byteSwap64 (0x000102030405060708090a0b0c0d0e0f % 2 ^ 64)) :=
  ⟨by norm_num, encode_key_splits_and_swaps.2.1 _ (by norm_num)⟩

theorem chunkWordsLE_length (l : List Nat) : (chunkWordsLE l).length = (l.length + 7) / 8 := by
  match l with
  | [] => rfl
  | [b0] => simp [chunkWordsLE]
  | [b0, b1] => simp [chunkWordsLE]
  | [b0, b1, b2] => simp [chunkWordsLE]
  | [b0, b1, b2, b3] => simp [chunkWordsLE]
  | [b0, b1, b2, b3, b4] => simp [chunkWordsLE]
  | [b0, b1, b2, b3, b4, b5] => simp [chunkWordsLE]
  | [b0, b1, b2, b3, b4, b5, b6] => simp [chunkWordsLE]
  | b0 :: b1 :: b2 :: b3 :: b4 :: b5 :: b6 :: b7 :: rest =>
      have ih := chunkWordsLE_length rest
      simp [chunkWordsLE, ih]
      omega

/-- C6: message_to_words on the empty message returns the single word 0, and on
any message whose length is a multiple of 8 it returns length/8 + 1 words. -/
theorem message_to_words_word_count :
    message_to_words [] = [0] ∧
    ∀ msg : List Nat, msg.length % 8 = 0 →
      (message_to_words msg).length = msg.length / 8 + 1 := by
  refine ⟨rfl, fun msg h => ?_⟩
  unfold message_to_words
  rw [chunkWordsLE_length]
  simp [paddedMessage]
  omega

/-- Witness for C6 at an 8-byte message. -/
theorem message_to_words_word_count_witness :
    (List.replicate 8 1).length % 8 = 0 ∧
    (message_to_words (List.replicate 8 1)).length = (List.replicate 8 1).length / 8 + 1 :=
  ⟨by decide, message_to_words_word_count.2 _ (by decide)⟩

/-- C8: for any byte message, key below 2^128 and positive round counts, the
whole pipeline completes without raising: get_hash returns a value and
hexdigest returns its hex string. -/
theorem pipeline_total_on_wellformed (k : Nat) (msg : List Nat) (c d : Int)
    (hk : k < 2 ^ 128) (hmsg : ∀ b ∈ msg, b < 256) (hc : 0 < c) (hd : 0 < d) :
    ∃ h : Nat, (get_hash (mkSipHash (Int.ofNat k) msg c d)).1 = .ok h ∧
      (hexdigest (mkSipHash (Int.ofNat k) msg c d)).1 = .ok (pyHex h) := by
  refine ⟨finalise d (compress c msg (initialise_internal_state
    (byteSwap64 (k / 2 ^ 64)) (byteSwap64 (k % 2 ^ 64)))), ?_, ?_⟩
  · rw [get_hash_ok_of_compute _ rfl _ (compute_hash_ofNat k hk msg c d)]
  · unfold hexdigest
    rw [get_hash_ok_of_compute _ rfl _ (compute_hash_ofNat k hk msg c d)]

/-- Witness for C8 at a small concrete input. -/
theorem pipeline_total_on_wellformed_witness :
    ∃ h : Nat, (get_hash (mkSipHash (Int.ofNat 3) [7] 2 4)).1 = .ok h ∧
      (hexdigest (mkSipHash (Int.ofNat 3) [7] 2 4)).1 = .ok (pyHex h) :=
  pipeline_total_on_wellformed 3 [7] 2 4 (by norm_num) (by decide) (by norm_num) (by norm_num)

/-- C3 (counterexample): c = 0 is non-positive, yet get_hash silently returns a
digest instead of raising any precondition violation. -/
theorem nonpositive_rounds_digest_ok :
    (0 : Int) ≤ 0 ∧ (get_hash (mkSipHash 0 [] 0 4)).1 = .ok 8689788807083123926 :=
  ⟨le_refl 0, by rfl⟩

/-- C3 (amended): a key of 128 bits or more makes the first digest request
raise an OverflowError (from `int.to_bytes` inside key encoding, not an
InvalidParameter contract check), while non-positive c or d are not rejected:
the round loops run zero times and a digest is returned. -/
theorem key_overflow_raises_rounds_unchecked :
    (∀ (key : Int) (msg : List Nat) (c d : Int), (2 : Int) ^ 128 ≤ key →
      (get_hash (mkSipHash key msg c d)).1 = .error .overflowError) ∧
    (∀ (k : Nat) (msg : List Nat) (c d : Int), k < 2 ^ 128 →
      ∃ h, (get_hash (mkSipHash (Int.ofNat k) msg c d)).1 = .ok h) := by
  constructor
  · intro key msg c d hkey
    obtain ⟨m, rfl⟩ : ∃ m : Nat, key = Int.ofNat m :=
      ⟨key.toNat, (Int.toNat_of_nonneg (le_trans (by positivity) hkey)).symm⟩
    have hm : 2 ^ 128 ≤ m :=
      Int.ofNat_le.mp (le_trans (by norm_num) hkey)
    have hbig : big_to_little8 (Int.ofNat (m / 0x10000000000000000)) =
        .error .overflowError := by
      unfold big_to_little8
      rw [if_neg]
      rintro ⟨-, h2⟩
      have h3 : m / 0x10000000000000000 < 0x10000000000000000 := Int.ofNat_lt.mp h2
      omega
    have hch : compute_hash (Int.ofNat m) msg c d = .error .overflowError := by
      unfold compute_hash encode_key
      rw [fdiv_ofNat_word, hbig]
      rfl
    rw [get_hash_error_of_compute _ rfl _ hch]
  · intro k msg c d hk
    exact ⟨_, by rw [get_hash_ok_of_compute _ rfl _ (compute_hash_ofNat k hk msg c d)]⟩

/-- Witness for the amended C3: an oversized key raises, and non-positive round
counts produce a digest. -/
theorem key_overflow_raises_rounds_unchecked_witness :
    (get_hash (mkSipHash ((2 : Int) ^ 128) [] 2 4)).1 = .error .overflowError ∧
    ∃ h, (get_hash (mkSipHash (Int.ofNat 0) [] 0 0)).1 = .ok h :=
  ⟨key_overflow_raises_rounds_unchecked.1 _ [] 2 4 (le_refl _),
   key_overflow_raises_rounds_unchecked.2 0 [] 0 0 (by norm_num)⟩

/-- C7: if get_hash returns a value, the returned engine state has that value
cached, and calling get_hash again returns the same value and the same state
straight from the cache. -/
theorem get_hash_memoization (s s2 : SipHash) (h : Nat)
    (hcall : get_hash s = (.ok h, s2)) :
    s2.hash = some h ∧ get_hash s2 = (.ok h, s2) := by
  unfold get_hash at hcall
  cases hh : s.hash with
  | some h0 =>
    rw [hh] at hcall
    simp only [Prod.mk.injEq, Except.ok.injEq] at hcall
    obtain ⟨rfl, rfl⟩ := hcall
    exact ⟨hh, by simp [get_hash, hh]⟩
  | none =>
    rw [hh] at hcall
    cases hc : compute_hash s.key s.message s.c s.d with
    | ok h1 =>
      rw [hc] at hcall
      simp only [Prod.mk.injEq, Except.ok.injEq] at hcall
      obtain ⟨rfl, rfl⟩ := hcall
      exact ⟨rfl, by simp [get_hash]⟩
    | error e =>
      rw [hc] at hcall
      simp at hcall

/-- Witness for C7: a concrete engine whose first get_hash call caches the
digest and whose second call returns it unchanged. -/
theorem get_hash_memoization_witness :
    ({ key := 0, message := [], c := 2, d := 4,
       hash := some 2202906307356721367 } : SipHash).hash = some 2202906307356721367 ∧
    get_hash { key := 0, message := [], c := 2, d := 4, hash := some 2202906307356721367 } =
      (.ok 2202906307356721367,
       { key := 0, message := [], c := 2, d := 4, hash := some 2202906307356721367 }) :=
  get_hash_memoization (mkSipHash 0 [] 2 4) _ 2202906307356721367 (by rfl)

/-- C10: a negative key is accepted at construction (hash field unset), but the
first get_hash call raises OverflowError from the byte conversion inside key
encoding, and the hash field is still unset afterwards. -/
theorem negative_key_defers_failure (key : Int) (hneg : key < 0)
    (msg : List Nat) (c d : Int) :
    (mkSipHash key msg c d).hash = none ∧
    (get_hash (mkSipHash key msg c d)).1 = .error .overflowError ∧
    ((get_hash (mkSipHash key msg c d)).2).hash = none := by
  cases key with
  | ofNat m => exact absurd hneg (Int.not_lt.mpr (Int.ofNat_nonneg m))
  | negSucc m =>
    have hbig : big_to_little8 (Int.negSucc (m / 0x10000000000000000)) =
        .error .overflowError := by
      unfold big_to_little8
      rw [if_neg]
      rintro ⟨h1, -⟩
      rw [Int.negSucc_eq] at h1
      omega
    have hch : compute_hash (Int.negSucc m) msg c d = .error .overflowError := by
      unfold compute_hash encode_key
      rw [show Int.fdiv (Int.negSucc m) 0x10000000000000000 =
            Int.negSucc (m / 0x10000000000000000) from rfl, hbig]
      rfl
    refine ⟨rfl, ?_, ?_⟩
    · rw [get_hash_error_of_compute _ rfl _ hch]
    · rw [get_hash_error_of_compute _ rfl _ hch]
      rfl

/-- Witness for C10 at key = -1. -/
theorem negative_key_defers_failure_witness :
    (mkSipHash (-1) [] 2 4).hash = none ∧
    (get_hash (mkSipHash (-1) [] 2 4)).1 = .error .overflowError ∧
    ((get_hash (mkSipHash (-1) [] 2 4)).2).hash = none :=
  negative_key_defers_failure (-1) (by norm_num) [] 2 4

theorem and_mask64 (x : Nat) : x &&& 0xffffffffffffffff = x % 2 ^ 64 := by
  rw [show (0xffffffffffffffff : Nat) = 2 ^ 64 - 1 by norm_num]
  exact Nat.and_pow_two_sub_one_eq_mod x 64

theorem mask64_lt (x : Nat) : x &&& 0xffffffffffffffff < 2 ^ 64 := by
  rw [and_mask64]
  exact Nat.mod_lt _ (by norm_num)

theorem rotl8_lt (v b : Nat) (hv : v < 2 ^ 64) : rotl8 v b < 2 ^ 64 := by
  unfold rotl8
  refine Nat.or_lt_two_pow (mask64_lt _) ?_
  calc v >>> (64 - b) ≤ v := by
        rw [Nat.shiftRight_eq_div_pow]; exact Nat.div_le_self _ _
    _ < 2 ^ 64 := hv

theorem rotl8_testBit (v : Nat) (hv : v < 2 ^ 64) (b i : Nat) (hb : b ≤ 64) (hi : i < 64) :
    (rotl8 v b).testBit i =
      if b ≤ i then v.testBit (i - b) else v.testBit (64 - b + i) := by
  unfold rotl8
  rw [and_mask64, Nat.testBit_lor, Nat.testBit_mod_two_pow, Nat.testBit_shiftLeft,
    Nat.testBit_shiftRight]
  by_cases hbi : b ≤ i
  · have hfar : v.testBit (64 - b + i) = false :=
      Nat.testBit_eq_false_of_lt
        (lt_of_lt_of_le hv (Nat.pow_le_pow_right (by norm_num) (by omega)))
    simp [hbi, hi, hfar, ge_iff_le]
  · simp [hbi, hi, ge_iff_le]

theorem rotl8_rotl8 (v b : Nat) (hv : v < 2 ^ 64) (hb0 : 0 < b) (hb : b < 64) :
    rotl8 (rotl8 v b) (64 - b) = v := by
  apply Nat.eq_of_testBit_eq
  intro i
  by_cases hi : i < 64
  · rw [rotl8_testBit _ (rotl8_lt v b hv) _ i (by omega) hi]
    by_cases hcase : 64 - b ≤ i
    · rw [if_pos hcase, rotl8_testBit v hv b _ (by omega) (by omega),
        if_neg (by omega)]
      congr 1
      omega
    · rw [if_neg hcase, rotl8_testBit v hv b _ (by omega) (by omega),
        if_pos (by omega)]
      congr 1
      omega
  · rw [Nat.testBit_eq_false_of_lt
        (lt_of_lt_of_le (rotl8_lt _ _ (rotl8_lt v b hv))
          (Nat.pow_le_pow_right (by norm_num) (by omega))),
      Nat.testBit_eq_false_of_lt
        (lt_of_lt_of_le hv (Nat.pow_le_pow_right (by norm_num) (by omega)))]

theorem rotl8_injective (x y b : Nat) (hx : x < 2 ^ 64) (hy : y < 2 ^ 64)
    (hb0 : 0 < b) (hb : b < 64) (h : rotl8 x b = rotl8 y b) : x = y := by
  rw [← rotl8_rotl8 x b hx hb0 hb, ← rotl8_rotl8 y b hy hb0 hb, h]

/-- One add-rotate-xor phase of sipround: `a += b; b = rotl(b, r); b ^= a`. -/
def arx (a b r : Nat) : Nat × Nat :=
  ((a + b) &&& 0xffffffffffffffff, rotl8 b r ^^^ ((a + b) &&& 0xffffffffffffffff))

theorem sipround_arx (v0 v1 v2 v3 : Nat) :
    sipround (v0, v1, v2, v3) =
      ((arx (rotl8 (arx v0 v1 13).1 32) (arx v2 v3 16).2 21).1,
       (arx (arx v2 v3 16).1 (arx v0 v1 13).2 17).2,
       rotl8 (arx (arx v2 v3 16).1 (arx v0 v1 13).2 17).1 32,
       (arx (rotl8 (arx v0 v1 13).1 32) (arx v2 v3 16).2 21).2) := rfl

theorem arx_fst_lt (a b r : Nat) : (arx a b r).1 < 2 ^ 64 := mask64_lt _

theorem arx_snd_lt (a b r : Nat) (hb : b < 2 ^ 64) : (arx a b r).2 < 2 ^ 64 :=
  Nat.xor_lt_two_pow (rotl8_lt b r hb) (mask64_lt _)

theorem arx_injective (a b a2 b2 r : Nat) (ha : a < 2 ^ 64) (hb : b < 2 ^ 64)
    (ha2 : a2 < 2 ^ 64) (hb2 : b2 < 2 ^ 64) (hr0 : 0 < r) (hr : r < 64)
    (h : arx a b r = arx a2 b2 r) : a = a2 ∧ b = b2 := by
  have hfst : (a + b) &&& 0xffffffffffffffff = (a2 + b2) &&& 0xffffffffffffffff :=
    congrArg Prod.fst h
  have hsnd := congrArg Prod.snd h
  simp only [arx] at hsnd
  rw [← hfst] at hsnd
  have hrot : rotl8 b r = rotl8 b2 r := by
    have := congrArg (fun t => t ^^^ ((a + b) &&& 0xffffffffffffffff)) hsnd
    simpa [Nat.xor_assoc] using this
  have hbb : b = b2 := rotl8_injective b b2 r hb hb2 hr0 hr hrot
  subst hbb
  refine ⟨?_, rfl⟩
  rw [and_mask64, and_mask64] at hfst
  omega

/-- The spec's rotateLeft64 (§4.1): both shifts masked to 64 bits. -/
def rotlSpec (v b : Nat) : Nat := ((v <<< b) % 2 ^ 64) ||| ((v >>> (64 - b)) % 2 ^ 64)

/-- The SipRound pseudocode of the spec (§4.5), transcribed step for step, with
additions taken modulo 2^64, for comparison with the source's sipround. -/
def sipRoundSpec (s : SipState) : SipState :=
  let (v0, v1, v2, v3) := s
  let v0 := (v0 + v1) % 2 ^ 64
  let v1 := rotlSpec v1 13
  let v1 := v1 ^^^ v0
  let v0 := rotlSpec v0 32
  let v2 := (v2 + v3) % 2 ^ 64
  let v3 := rotlSpec v3 16
  let v3 := v3 ^^^ v2
  let v2 := (v2 + v1) % 2 ^ 64
  let v1 := rotlSpec v1 17
  let v1 := v1 ^^^ v2
  let v2 := rotlSpec v2 32
  let v0 := (v0 + v3) % 2 ^ 64
  let v3 := rotlSpec v3 21
  let v3 := v3 ^^^ v0
  (v0, v1, v2, v3)

/-- The arx phase of sipRoundSpec. -/
def arxSpec (a b r : Nat) : Nat × Nat :=
  ((a + b) % 2 ^ 64, rotlSpec b r ^^^ ((a + b) % 2 ^ 64))

theorem sipRoundSpec_arx (v0 v1 v2 v3 : Nat) :
    sipRoundSpec (v0, v1, v2, v3) =
      ((arxSpec (rotlSpec (arxSpec v0 v1 13).1 32) (arxSpec v2 v3 16).2 21).1,
       (arxSpec (arxSpec v2 v3 16).1 (arxSpec v0 v1 13).2 17).2,
       rotlSpec (arxSpec (arxSpec v2 v3 16).1 (arxSpec v0 v1 13).2 17).1 32,
       (arxSpec (rotlSpec (arxSpec v0 v1 13).1 32) (arxSpec v2 v3 16).2 21).2) := rfl

theorem rotl8_eq_rotlSpec (v b : Nat) (hv : v < 2 ^ 64) : rotl8 v b = rotlSpec v b := by
  unfold rotl8 rotlSpec
  rw [and_mask64, Nat.mod_eq_of_lt (show v >>> (64 - b) < 2 ^ 64 from
    lt_of_le_of_lt (by rw [Nat.shiftRight_eq_div_pow]; exact Nat.div_le_self _ _) hv)]

theorem arx_eq_arxSpec (a b r : Nat) (hb : b < 2 ^ 64) : arx a b r = arxSpec a b r := by
  unfold arx arxSpec
  rw [and_mask64, rotl8_eq_rotlSpec b r hb]

theorem arxSpec_fst_lt (a b r : Nat) : (arxSpec a b r).1 < 2 ^ 64 :=
  Nat.mod_lt _ (by norm_num)

theorem rotlSpec_lt (v b : Nat) : rotlSpec v b < 2 ^ 64 :=
  Nat.or_lt_two_pow (Nat.mod_lt _ (by norm_num)) (Nat.mod_lt _ (by norm_num))

theorem arxSpec_snd_lt (a b r : Nat) : (arxSpec a b r).2 < 2 ^ 64 :=
  Nat.xor_lt_two_pow (rotlSpec_lt _ _) (Nat.mod_lt _ (by norm_num))

theorem sipround_eq_spec (s : SipState)
    (hs : s.1 < 2 ^ 64 ∧ s.2.1 < 2 ^ 64 ∧ s.2.2.1 < 2 ^ 64 ∧ s.2.2.2 < 2 ^ 64) :
    sipround s = sipRoundSpec s := by
  obtain ⟨v0, v1, v2, v3⟩ := s
  obtain ⟨h0, h1, h2, h3⟩ := hs
  rw [sipround_arx, sipRoundSpec_arx, arx_eq_arxSpec v0 v1 13 h1, arx_eq_arxSpec v2 v3 16 h3,
    rotl8_eq_rotlSpec (arxSpec v0 v1 13).1 32 (arxSpec_fst_lt v0 v1 13),
    arx_eq_arxSpec (arxSpec v2 v3 16).1 (arxSpec v0 v1 13).2 17 (arxSpec_snd_lt v0 v1 13),
    rotl8_eq_rotlSpec (arxSpec (arxSpec v2 v3 16).1 (arxSpec v0 v1 13).2 17).1 32
      (arxSpec_fst_lt _ _ 17),
    arx_eq_arxSpec (rotlSpec (arxSpec v0 v1 13).1 32) (arxSpec v2 v3 16).2 21
      (arxSpec_snd_lt v2 v3 16)]

/-- C4: sipround performs exactly the ARX step sequence given in the spec
(additions modulo 2^64, rotations by 13, 32, 16, 17, 32, 21, XORs, in that
order) on every 64-bit state, and two applications starting from the
documented state give the documented result. -/
theorem sipround_matches_spec_and_vector :
    (∀ s : SipState, Valid64 s → sipround s = sipRoundSpec s) ∧
    siproundIter 2 (0x7469686173716475, 0x6b617f6d656e6665, 0x6b7f62616d677361,
      0x7c6d6c6a717c6d7b) =
      (0x4d07749cdd0858e0, 0x0d52f6f62a4f59a4, 0x634cb3577b01fd3d, 0xa5224d6f55c7d9c8) := by
  constructor
  · intro s hs
    unfold Valid64 at hs
    exact sipround_eq_spec s hs
  · rfl

/-- Witness for C4 at a small concrete state. -/
theorem sipround_matches_spec_and_vector_witness :
    Valid64 (1, 2, 3, 4) ∧ sipround (1, 2, 3, 4) = sipRoundSpec (1, 2, 3, 4) :=
  ⟨by decide, sipround_matches_spec_and_vector.1 (1, 2, 3, 4) (by decide)⟩

/-- C9: sipround is a permutation of the space of 4-tuples of 64-bit words: it
maps valid states to valid states and never sends two distinct states to the
same output. -/
theorem sipround_state_permutation :
    (∀ s : SipState, Valid64 s → Valid64 (sipround s)) ∧
    (∀ s t : SipState, Valid64 s → Valid64 t → sipround s = sipround t → s = t) := by
  constructor
  · intro s hs
    obtain ⟨v0, v1, v2, v3⟩ := s
    obtain ⟨h0, h1, h2, h3⟩ := hs
    rw [sipround_arx]
    exact ⟨arx_fst_lt (rotl8 (arx v0 v1 13).1 32) ((arx v2 v3 16).2) 21,
      arx_snd_lt ((arx v2 v3 16).1) ((arx v0 v1 13).2) 17 (arx_snd_lt v0 v1 13 h1),
      rotl8_lt (arx ((arx v2 v3 16).1) ((arx v0 v1 13).2) 17).1 32
        (arx_fst_lt ((arx v2 v3 16).1) ((arx v0 v1 13).2) 17),
      arx_snd_lt (rotl8 (arx v0 v1 13).1 32) ((arx v2 v3 16).2) 21
        (arx_snd_lt v2 v3 16 h3)⟩
  · intro s t hs ht h
    obtain ⟨a0, a1, a2, a3⟩ := s
    obtain ⟨b0, b1, b2, b3⟩ := t
    obtain ⟨ha0, ha1, ha2, ha3⟩ := hs
    obtain ⟨hb0, hb1, hb2, hb3⟩ := ht
    rw [sipround_arx, sipround_arx] at h
    simp only [Prod.mk.injEq] at h
    obtain ⟨h1, h2, h3, h4⟩ := h
    have e21 : arx (rotl8 (arx a0 a1 13).1 32) (arx a2 a3 16).2 21 =
        arx (rotl8 (arx b0 b1 13).1 32) (arx b2 b3 16).2 21 :=
      Prod.ext h1 h4
    obtain ⟨e0rot, e16snd⟩ := arx_injective _ _ _ _ 21
      (rotl8_lt _ 32 (arx_fst_lt a0 a1 13)) (arx_snd_lt a2 a3 16 ha3)
      (rotl8_lt _ 32 (arx_fst_lt b0 b1 13)) (arx_snd_lt b2 b3 16 hb3)
      (by norm_num) (by norm_num) e21
    have e13fst : (arx a0 a1 13).1 = (arx b0 b1 13).1 :=
      rotl8_injective _ _ 32 (arx_fst_lt a0 a1 13) (arx_fst_lt b0 b1 13)
        (by norm_num) (by norm_num) e0rot
    have e17fst : (arx (arx a2 a3 16).1 (arx a0 a1 13).2 17).1 =
        (arx (arx b2 b3 16).1 (arx b0 b1 13).2 17).1 :=
      rotl8_injective _ _ 32
        (arx_fst_lt _ _ 17) (arx_fst_lt _ _ 17) (by norm_num) (by norm_num) h3
    have e17 : arx (arx a2 a3 16).1 (arx a0 a1 13).2 17 =
        arx (arx b2 b3 16).1 (arx b0 b1 13).2 17 :=
      Prod.ext e17fst h2
    obtain ⟨e16fst, e13snd⟩ := arx_injective _ _ _ _ 17
      (arx_fst_lt a2 a3 16) (arx_snd_lt a0 a1 13 ha1)
      (arx_fst_lt b2 b3 16) (arx_snd_lt b0 b1 13 hb1)
      (by norm_num) (by norm_num) e17
    obtain ⟨g2, g3⟩ := arx_injective a2 a3 b2 b3 16 ha2 ha3 hb2 hb3
      (by norm_num) (by norm_num) (Prod.ext e16fst e16snd)
    obtain ⟨g0, g1⟩ := arx_injective a0 a1 b0 b1 13 ha0 ha1 hb0 hb1
      (by norm_num) (by norm_num) (Prod.ext e13fst e13snd)
    simp [g0, g1, g2, g3]

/-- Witness for C9: validity preservation and injectivity applied at a
concrete state. -/
theorem sipround_state_permutation_witness :
    Valid64 (5, 6, 7, 8) ∧ Valid64 (sipround (5, 6, 7, 8)) ∧
      ((5, 6, 7, 8) : SipState) = (5, 6, 7, 8) :=
  ⟨by decide, sipround_state_permutation.1 (5, 6, 7, 8) (by decide),
   sipround_state_permutation.2 (5, 6, 7, 8) (5, 6, 7, 8) (by decide) (by decide) rfl⟩
